import Mathlib

/-!
Verification of the e-inky repository: the CREngine C shim
(`crates/crengine/src/shim/shim.h` together with its implementation file)
is embedded directly; the XTC conversion pipeline (quantizer, page
encoder, container builder, conversion session) described by the design
document is not present in the repository sources, so those components
are modelled from the specification text and verified against it.
-/

namespace Shim

/-- Result codes returned by shim calls (`enum CreResult`). -/
inductive CreResult where
  | ok
  | unsupported
  | invalidArgument
  | internalError
deriving DecidableEq

/-- Pixel formats supported by the rendering surface (`enum CreSurfaceFormat`). -/
inductive CreSurfaceFormat where
  | invalid
  | gray8
  | monochrome
deriving DecidableEq

/-- Width/height pair (`struct CreSize`). -/
structure CreSize where
  width : Nat
  height : Nat
deriving DecidableEq

/-- Rendering buffer descriptor (`struct CreRenderSurface`). The `data`
pointer is `none` for NULL; otherwise it carries the pointed-to byte
buffer, one `Nat` (< 256 in practice) per byte. -/
structure CreRenderSurface where
  data : Option (List Nat)
  stride : Nat
  size : CreSize
  format : CreSurfaceFormat
deriving DecidableEq

/-- Layout preferences (`struct CreLayoutConfig`). -/
structure CreLayoutConfig where
  font_size : Nat
  line_height_percent : Nat
  page_margin_dp : Nat
deriving DecidableEq

/-- Document state (`struct CreDocument` in the shim implementation). -/
structure CreDocument where
  pages : Nat
deriving DecidableEq

/-- The shim helper validate_surface: NULL surface, NULL
data, zero stride, zero width or height, or the invalid format are all
rejected with `CRE_RESULT_INVALID_ARGUMENT`. -/
def validate_surface (surface : Option CreRenderSurface) : CreResult :=
  match surface with
  | none => .invalidArgument
  | some s =>
    if s.data = none ∨ s.stride = 0 then .invalidArgument
    else if s.size.width = 0 ∨ s.size.height = 0 then .invalidArgument
    else if s.format = .invalid then .invalidArgument
    else .ok

/-- Shim cre_open_document: a NULL path fails with
`CRE_RESULT_INVALID_ARGUMENT`; otherwise a fresh document with
`pages = 0` is returned with `CRE_RESULT_OK`. The `malloc` failure
branch (which returns `CRE_RESULT_INTERNAL_ERROR`) is not modelled:
allocation is assumed to succeed. -/
def cre_open_document (path : Option String) : Option CreDocument × CreResult :=
  match path with
  | none => (none, .invalidArgument)
  | some _ => (some { pages := 0 }, .ok)

/-- Shim cre_page_count: with non-NULL `doc` and `out_pages` it stores the
document's page counter through `out_pages` and returns `CRE_RESULT_OK`;
otherwise it returns `CRE_RESULT_INVALID_ARGUMENT` and leaves `out_pages`
untouched. The second component is the value behind `out_pages` after
the call. -/
def cre_page_count (doc : Option CreDocument) (out_pages : Option Nat) :
    CreResult × Option Nat :=
  match doc, out_pages with
  | some d, some _ => (.ok, some d.pages)
  | _, _ => (.invalidArgument, out_pages)

/-- Shim cre_layout_document: with non-NULL `doc` and `config` it sets the
document's page counter to 1 (stub layout) and returns `CRE_RESULT_OK`,
ignoring the contents of `config`; otherwise it returns
`CRE_RESULT_INVALID_ARGUMENT` and leaves the document untouched. The
second component is the document state after the call. -/
def cre_layout_document (doc : Option CreDocument) (config : Option CreLayoutConfig) :
    CreResult × Option CreDocument :=
  match doc, config with
  | some _, some _ => (.ok, some { pages := 1 })
  | _, _ => (.invalidArgument, doc)

/-- The nested fill loops of `cre_render_page`: for each row
`y < rows` the byte `(page_index + y) & 0xFF` is stored at
`data[y * stride + x]` for every `x < stride`. The offset
`y * stride + x` is computed in `uint32_t` arithmetic in the C source
and therefore wraps mod 2^32; the stored value `(page_index + y) & 0xFF`
is the low byte of the wrapped `uint32_t` sum, which equals
`(page_index + y) % 256` because 256 divides 2^32. -/
def fillBuffer (page_index stride rows : Nat) (buf : List Nat) : List Nat :=
  (List.range rows).foldl
    (fun b y =>
      (List.range stride).foldl
        (fun b2 x => b2.set ((y * stride + x) % 2 ^ 32) ((page_index + y) % 256)) b)
    buf

/-- Shim cre_render_page: NULL doc or out-of-range page index fail with
`CRE_RESULT_INVALID_ARGUMENT`; a surface rejected by `validate_surface`
propagates that status; otherwise the buffer is filled row by row with
the pattern `(page_index + y) & 0xFF` and `CRE_RESULT_OK` is returned.
The second component is the surface state after the call. -/
def cre_render_page (doc : Option CreDocument) (page_index : Nat)
    (surface : Option CreRenderSurface) : CreResult × Option CreRenderSurface :=
  match doc with
  | none => (.invalidArgument, surface)
  | some d =>
    if d.pages ≤ page_index then (.invalidArgument, surface)
    else
      match validate_surface surface with
      | .ok =>
        match surface with
        | some s =>
          match s.data with
          | some buf =>
            (.ok, some { s with
              data := some (fillBuffer page_index s.stride s.size.height buf) })
          | none => (.internalError, surface)
        | none => (.internalError, surface)
      | r => (r, surface)

end Shim

namespace Pipeline

/-- Modelled from the spec: the conversion pipeline (§2–§4.6) is absent
from the repository sources, so its data model is reconstructed from the
design document. A device preset is an immutable (width, height) pair. -/
structure DevicePreset where
  width : Nat
  height : Nat
deriving DecidableEq

/-- Modelled from the spec: the two supported page formats (§4.2, §4.3):
1-bit monochrome and 4-level grayscale. -/
inductive PageFormat where
  | monochrome
  | gray4
deriving DecidableEq

/-- Modelled from the spec: the quantization level count of a format;
2 for monochrome, 4 for grayscale (§4.2). -/
def PageFormat.levels : PageFormat → Nat
  | .monochrome => 2
  | .gray4 => 4

/-- Modelled from the spec: the format tag stored in the 22-byte page
header (§4.3); the exact numeric values are unspecified there, so 1 and
2 are fixed here. -/
def PageFormat.tag : PageFormat → Nat
  | .monochrome => 1
  | .gray4 => 2

/-- Modelled from the spec: one page's pixel data, 8-bit grayscale,
row-major, one byte per pixel (§3 RasterFrame). -/
structure RasterFrame where
  width : Nat
  height : Nat
  pixels : List Nat
deriving DecidableEq

/-- Modelled from the spec: the quantizer output, one level value
(0..levels-1) per pixel in the same row-major layout as the input
frame (§4.2). -/
structure QuantizedRaster where
  width : Nat
  height : Nat
  levels : Nat
  pixels : List Nat
deriving DecidableEq

/-- Modelled from the spec: a fixed 4×4 ordered-dither (Bayer) threshold
matrix; the spec requires only a fixed, reproducible dither (§4.2), so
the classic Bayer matrix is used. -/
def bayer4 : Nat → Nat → Nat
  | 0, 0 => 0  | 0, 1 => 8  | 0, 2 => 2  | 0, 3 => 10
  | 1, 0 => 12 | 1, 1 => 4  | 1, 2 => 14 | 1, 3 => 6
  | 2, 0 => 3  | 2, 1 => 11 | 2, 2 => 1  | 2, 3 => 9
  | 3, 0 => 15 | 3, 1 => 7  | 3, 2 => 13 | 3, 3 => 5
  | _, _ => 0

/-- Clamp an integer into the interval [lo, hi]. -/
def clampInt (lo hi v : Int) : Int := max lo (min v hi)

/-- Modelled from the spec: quantization of a single pixel (§4.2). The
tone curve is flipped first when `invert` is set, an ordered-dither bias
scaled by `dither_strength` (0 = pure thresholding) is added, and the
result is scaled to `0..levels-1` with rounding and clamping. -/
def quantizePixel (levels dither_strength : Nat) (invert : Bool) (x y p : Nat) : Nat :=
  let v : Int := if invert then 255 - (p : Int) else (p : Int)
  let bias : Int :=
    ((dither_strength : Int) * (2 * (bayer4 (y % 4) (x % 4) : Int) - 15) * 255) / (32 * 100)
  let q : Int := (clampInt 0 255 (v + bias) * ((levels : Int) - 1) + 127) / 255
  (clampInt 0 ((levels : Int) - 1) q).toNat

/-- Modelled from the spec: `quantize(frame, levels, dither_strength,
invert) -> QuantizedRaster` (§4.2), a pure function of exactly these
four inputs — no randomness and no timing dependence. -/
def quantize (frame : RasterFrame) (levels dither_strength : Nat) (invert : Bool) :
    QuantizedRaster :=
  { width := frame.width
    height := frame.height
    levels := levels
    pixels :=
      ((List.range frame.height).map (fun y =>
        (List.range frame.width).map (fun x =>
          quantizePixel levels dither_strength invert x y
            (frame.pixels.getD (y * frame.width + x) 0)))).flatten }

/-- Little-endian-positional accumulation of a chunk of sub-byte values
into one byte: the first value lands in the least significant bits. -/
def byteOfChunk (B : Nat) : List Nat → Nat
  | [] => 0
  | v :: rest => v + B * byteOfChunk B rest

/-- Split one byte back into `k` base-`B` values, least significant
first; inverse of `byteOfChunk` on in-range chunks. -/
def chunkOfByte (B : Nat) : Nat → Nat → List Nat
  | 0, _ => []
  | k + 1, n => n % B :: chunkOfByte B k (n / B)

/-- Pad a chunk with zeroes up to length `k` (the zero-padding of a
partial byte at the end of a row or column, §4.3). -/
def padTo (k : Nat) (c : List Nat) : List Nat := c ++ List.replicate (k - c.length) 0

/-- Pack `n` chunks of `k` values each off the front of a stream, the
last chunk zero-padded. -/
def packChunks (B k : Nat) : Nat → List Nat → List Nat
  | 0, _ => []
  | n + 1, vs => byteOfChunk B (padTo k (vs.take k)) :: packChunks B k n (vs.drop k)

/-- Modelled from the spec: pack a stream of values (each < B, k of them
per byte) into bytes, zero-padding the final partial byte (§4.3). -/
def packStream (B k : Nat) (vs : List Nat) : List Nat :=
  packChunks B k ((vs.length + k - 1) / k) vs

/-- Modelled from the spec: inverse of `packStream`; unpack `n` values
from a byte list (§4.5). -/
def unpackStream (B k n : Nat) (bytes : List Nat) : List Nat :=
  ((bytes.map (chunkOfByte B k)).flatten).take n

/-- Little-endian encoding of `v` into `n` bytes (§4.3: all multi-byte
header fields are little-endian). -/
def leBytes (n v : Nat) : List Nat := chunkOfByte 256 n v

/-- Read an `n`-byte little-endian field at byte offset `off`. -/
def readLE (bytes : List Nat) (off n : Nat) : Nat :=
  byteOfChunk 256 ((bytes.drop off).take n)

/-- Modelled from the spec: the fixed 22-byte page header (§4.3): format
tag (2 bytes), pixel width (4), pixel height (4), payload byte length
(4), little-endian, padded with reserved zero bytes to 22. -/
def pageHeader (fmt : PageFormat) (w h payloadLen : Nat) : List Nat :=
  leBytes 2 fmt.tag ++ leBytes 4 w ++ leBytes 4 h ++ leBytes 4 payloadLen ++
    List.replicate 8 0

/-- Modelled from the spec: an encoded page is a fixed-size header
immediately followed by a packed bitmap payload (§3 EncodedPage). -/
structure EncodedPage where
  header : List Nat
  payload : List Nat
deriving DecidableEq

/-- Modelled from the spec: the fixed non-linear lookup table applied to
each 2-bit grayscale level before packing; it swaps the two middle
levels relative to naive linear ordering (§4.3). -/
def grayLut : Nat → Nat
  | 0 => 0
  | 1 => 2
  | 2 => 1
  | _ => 3

/-- The rows of a row-major pixel list: row y is the w pixels at
indices y*w .. y*w+w-1. -/
def rowsOf (w h : Nat) (pixels : List Nat) : List (List Nat) :=
  (List.range h).map (fun y => (List.range w).map (fun x => pixels.getD (y * w + x) 0))

/-- The columns of a row-major pixel list: column x is read top to
bottom, pixel (x, y) sitting at row-major index y*w+x (the
column-major / vertical scan of §4.3). -/
def columnsOf (w h : Nat) (pixels : List Nat) : List (List Nat) :=
  (List.range w).map (fun x => (List.range h).map (fun y => pixels.getD (y * w + x) 0))

/-- Rebuild the row-major pixel list from a list of w columns of height
h each (inverse transpose used by the reader, §4.5). -/
def rowsFromColumns (w h : Nat) (cols : List (List Nat)) : List Nat :=
  ((List.range h).map (fun y =>
    (List.range w).map (fun x => (cols.getD x []).getD y 0))).flatten

/-- Modelled from the spec: monochrome payload — one bit per pixel,
packed row by row, any partial byte at row end zero-padded (§4.3). -/
def encodeMonoPayload (q : QuantizedRaster) : List Nat :=
  ((rowsOf q.width q.height q.pixels).map (packStream 2 8)).flatten

/-- Modelled from the spec: grayscale payload — two bits per pixel,
each level remapped through `grayLut`, pixels packed in column-major
(vertical scan) order, column by column (§4.3). -/
def encodeGrayPayload (q : QuantizedRaster) : List Nat :=
  ((columnsOf q.width q.height q.pixels).map
    (fun col => packStream 4 4 (col.map grayLut))).flatten

/-- Modelled from the spec: `encode(quantized, format) -> EncodedPage`
(§4.3): a 22-byte header followed by the format-specific payload. -/
def encode (q : QuantizedRaster) (fmt : PageFormat) : EncodedPage :=
  let payload :=
    match fmt with
    | .monochrome => encodeMonoPayload q
    | .gray4 => encodeGrayPayload q
  { header := pageHeader fmt q.width q.height payload.length, payload := payload }

/-- Unpack `numRows` rows (or columns) of `rowLen` values each from a
byte list, each row occupying its own whole bytes. -/
def unpackRows (B k rowLen : Nat) : Nat → List Nat → List (List Nat)
  | 0, _ => []
  | n + 1, bytes =>
    unpackStream B k rowLen (bytes.take ((rowLen + k - 1) / k)) ::
      unpackRows B k rowLen n (bytes.drop ((rowLen + k - 1) / k))

/-- Modelled from the spec: `decode_page`, the inverse of `encode`
(§4.5): parse the 22-byte header, then undo the packing — including the
column-major transpose and the lookup-table inversion for grayscale
pages. Returns `none` on a malformed page. -/
def decodePage (p : EncodedPage) : Option QuantizedRaster :=
  if p.header.length ≠ 22 then none
  else
    let tag := readLE p.header 0 2
    let w := readLE p.header 2 4
    let h := readLE p.header 6 4
    let plen := readLE p.header 10 4
    if plen ≠ p.payload.length then none
    else if tag = PageFormat.monochrome.tag then
      some { width := w, height := h, levels := 2
             pixels := (unpackRows 2 8 w h p.payload).flatten }
    else if tag = PageFormat.gray4.tag then
      some { width := w, height := h, levels := 4
             pixels := rowsFromColumns w h
               ((unpackRows 4 4 h w p.payload).map (fun col => col.map grayLut)) }
    else none

/-- Modelled from the spec: the error taxonomy used by the pipeline
components (§7). -/
inductive PipelineError where
  | DimensionMismatch
  | OutOfOrderPage
  | InvalidChapterTable
  | AlreadyFinalized
  | SessionClosed
deriving DecidableEq

/-- Modelled from the spec: a chapter entry is a (title, starting page
index) pair (§3 ChapterEntry). -/
structure ChapterEntry where
  title : String
  pageIndex : Nat
deriving DecidableEq

/-- Chapter entries already sorted by page index ascending (§4.4). -/
def chaptersSorted : List ChapterEntry → Bool
  | [] => true
  | [_] => true
  | a :: b :: rest => (decide (a.pageIndex ≤ b.pageIndex)) && chaptersSorted (b :: rest)

/-- Modelled from the spec: chapter validation (§4.4): every chapter's
page index must be < total page count and the list must already be
sorted by page index. -/
def chaptersOk (chs : List ChapterEntry) (pageCount : Nat) : Bool :=
  chs.all (fun c => decide (c.pageIndex < pageCount)) && chaptersSorted chs

/-- Modelled from the spec: the accumulating builder state (§4.4). -/
structure ContainerBuilder where
  pages : List EncodedPage
  meta : List Nat
  thumb : Option (List Nat)
  chapters : List ChapterEntry
  finished : Bool
deriving DecidableEq

/-- Modelled from the spec: `begin(session) -> builder` (§4.4). -/
def ContainerBuilder.begin : ContainerBuilder :=
  { pages := [], meta := [], thumb := none, chapters := [], finished := false }

/-- Modelled from the spec: `push_page(builder, EncodedPage)` (§4.4). -/
def push_page (b : ContainerBuilder) (p : EncodedPage) : ContainerBuilder :=
  { b with pages := b.pages ++ [p] }

/-- Modelled from the spec: `set_chapters` stores the chapter list for
validation at finish time (§4.4, §4.6). -/
def set_chapters (b : ContainerBuilder) (chs : List ChapterEntry) : ContainerBuilder :=
  { b with chapters := chs }

/-- The bytes one encoded page occupies in the payload data section:
its 22-byte bitmap header followed by its packed payload. -/
def pageBlob (p : EncodedPage) : List Nat := p.header ++ p.payload

/-- Modelled from the spec: the parsed whole-book container (§3
XtcContainer): a 56-byte leading header carrying the page count and the
offset/size of each of the five sections, the page index table, and the
chapter page indices. Offset 0 is the absent sentinel for omitted
optional sections. -/
structure XtcContainer where
  fileSize : Nat
  pageCount : Nat
  metaOff : Nat
  metaSize : Nat
  tableOff : Nat
  tableSize : Nat
  dataOff : Nat
  dataSize : Nat
  thumbOff : Nat
  thumbSize : Nat
  chapOff : Nat
  chapSize : Nat
  pageTable : List (Nat × Nat)
  chapters : List Nat
deriving DecidableEq

/-- Modelled from the spec: the 56-byte container header (§6): page
count then offset/size of the five sections, all little-endian, padded
with reserved zero bytes to 56. -/
def containerHeader (c : XtcContainer) : List Nat :=
  leBytes 4 c.pageCount ++
  leBytes 4 c.metaOff ++ leBytes 4 c.metaSize ++
  leBytes 4 c.tableOff ++ leBytes 4 c.tableSize ++
  leBytes 4 c.dataOff ++ leBytes 4 c.dataSize ++
  leBytes 4 c.thumbOff ++ leBytes 4 c.thumbSize ++
  leBytes 4 c.chapOff ++ leBytes 4 c.chapSize ++
  List.replicate 12 0

/-- Lay encoded pages out back to back starting at `off`, producing the
page index table of (absolute offset, byte size) entries (§4.4). -/
def layoutPages (off : Nat) : List EncodedPage → List (Nat × Nat)
  | [] => []
  | p :: ps => (off, (pageBlob p).length) :: layoutPages (off + (pageBlob p).length) ps

/-- The container laid out by a successful finish: sections in the
fixed order metadata, page index, page payload data, thumbnail,
chapters, each offset pointing at the first byte of its section, with
offset 0 as the absent sentinel for omitted optional sections (§4.4). -/
def buildContainer (b : ContainerBuilder) : XtcContainer :=
  let metaOff := 56
  let metaSize := b.meta.length
  let tableOff := metaOff + metaSize
  let tableSize := 8 * b.pages.length
  let dataOff := tableOff + tableSize
  let dataSize := (b.pages.map (fun p => (pageBlob p).length)).sum
  let thumbSize := (b.thumb.getD []).length
  let thumbOff := if b.thumb = none then 0 else dataOff + dataSize
  let chapSize := 8 * b.chapters.length
  let chapOff := if b.chapters = [] then 0 else dataOff + dataSize + thumbSize
  { fileSize := dataOff + dataSize + thumbSize + chapSize
    pageCount := b.pages.length
    metaOff := metaOff, metaSize := metaSize
    tableOff := tableOff, tableSize := tableSize
    dataOff := dataOff, dataSize := dataSize
    thumbOff := thumbOff, thumbSize := thumbSize
    chapOff := chapOff, chapSize := chapSize
    pageTable := layoutPages dataOff b.pages
    chapters := b.chapters.map (fun c => c.pageIndex) }

/-- Modelled from the spec: `finish(builder)` (§4.4): fatal on a second
call (`AlreadyFinalized`); validates the chapter table
(`InvalidChapterTable`); otherwise lays the container out via
`buildContainer`. -/
def ContainerBuilder.finish (b : ContainerBuilder) : Except PipelineError XtcContainer :=
  if b.finished then .error .AlreadyFinalized
  else if chaptersOk b.chapters b.pages.length then .ok (buildContainer b)
  else .error .InvalidChapterTable

/-- Modelled from the spec: the distinct structural findings reported by
the validator (§4.5): offsets out of file bounds, page-table entries out
of the data section, overlapping payload regions, chapter indices out of
range, and a page table whose length disagrees with the page count. -/
inductive Finding where
  | MetaOutOfBounds
  | TableOutOfBounds
  | DataOutOfBounds
  | ThumbOutOfBounds
  | ChapTableOutOfBounds
  | PageEntryOutOfBounds (i : Nat)
  | OverlappingPayload (i : Nat)
  | ChapterOutOfRange (i : Nat)
  | PageTableCountMismatch
deriving DecidableEq

/-- One section's offset check (§4.5): offset 0 is the absent sentinel;
otherwise the section must start after the 56-byte header and end within
the file. -/
def checkSection (fileSize off size : Nat) (f : Finding) : List Finding :=
  if off = 0 then []
  else if 56 ≤ off ∧ off + size ≤ fileSize then []
  else [f]

/-- Page-table bounds check (§4.5): every referenced payload region must
lie inside the payload data section. -/
def checkPageBounds (dataOff dataSize : Nat) : List (Nat × Nat) → Nat → List Finding
  | [], _ => []
  | e :: rest, i =>
    (if dataOff ≤ e.1 ∧ e.1 + e.2 ≤ dataOff + dataSize then []
     else [Finding.PageEntryOutOfBounds i]) ++ checkPageBounds dataOff dataSize rest (i + 1)

/-- Overlap check (§4.5): consecutive page-table regions must not
overlap. -/
def checkOverlap : List (Nat × Nat) → Nat → List Finding
  | [], _ => []
  | [_], _ => []
  | a :: b :: rest, i =>
    (if a.1 + a.2 ≤ b.1 then [] else [Finding.OverlappingPayload i]) ++
      checkOverlap (b :: rest) (i + 1)

/-- Chapter range check (§4.5): every chapter's page index must be
< page count. -/
def checkChapters (pageCount : Nat) : List Nat → Nat → List Finding
  | [], _ => []
  | c :: rest, i =>
    (if c < pageCount then [] else [Finding.ChapterOutOfRange i]) ++
      checkChapters pageCount rest (i + 1)

/-- Modelled from the spec: `validate(container) -> list of structural
violations` (§4.5); non-destructive, usable as a pure property-test
oracle, and empty exactly when no defect is found. -/
def validate (c : XtcContainer) : List Finding :=
  checkSection c.fileSize c.metaOff c.metaSize .MetaOutOfBounds ++
  checkSection c.fileSize c.tableOff c.tableSize .TableOutOfBounds ++
  checkSection c.fileSize c.dataOff c.dataSize .DataOutOfBounds ++
  checkSection c.fileSize c.thumbOff c.thumbSize .ThumbOutOfBounds ++
  checkSection c.fileSize c.chapOff c.chapSize .ChapTableOutOfBounds ++
  (if c.pageTable.length = c.pageCount then [] else [Finding.PageTableCountMismatch]) ++
  checkPageBounds c.dataOff c.dataSize c.pageTable 0 ++
  checkOverlap c.pageTable 0 ++
  checkChapters c.pageCount c.chapters 0

/-- Modelled from the spec: the conversion-session state machine
(§4.6): Open → Receiving → Finalizing → Closed, with Aborted terminal. -/
inductive SessionState where
  | opened
  | receiving
  | finalizing
  | closed
  | aborted
deriving DecidableEq

/-- Modelled from the spec: one book's in-progress conversion (§3
ConversionSession): device preset, target format, dithering options,
current state and the owned builder. The received page count is the
builder's page count. -/
structure Session where
  preset : DevicePreset
  format : PageFormat
  dither_strength : Nat
  invert : Bool
  state : SessionState
  builder : ContainerBuilder
deriving DecidableEq

/-- Modelled from the spec: session creation (§4.6): a fresh session in
the `Open` state with an empty builder. -/
def Session.create (preset : DevicePreset) (fmt : PageFormat)
    (dither_strength : Nat) (invert : Bool) : Session :=
  { preset := preset, format := fmt, dither_strength := dither_strength
    invert := invert, state := .opened, builder := ContainerBuilder.begin }

/-- Modelled from the spec: `push(page_index, frame)` (§4.1, §4.6):
validates dimensions against the preset, requires the page index to be
exactly the next expected index (strictly increasing from 0, no gaps —
out-of-order pages are rejected, not buffered), then synchronously
quantizes, encodes and pushes to the builder. Rejections change no
state. -/
def Session.push (s : Session) (page_index : Nat) (frame : RasterFrame) :
    Option PipelineError × Session :=
  match s.state with
  | .opened | .receiving =>
    if frame.width ≠ s.preset.width ∨ frame.height ≠ s.preset.height then
      (some .DimensionMismatch, s)
    else if page_index ≠ s.builder.pages.length then
      (some .OutOfOrderPage, s)
    else
      (none, { s with
        state := .receiving
        builder := push_page s.builder
          (encode (quantize frame s.format.levels s.dither_strength s.invert) s.format) })
  | _ => (some .SessionClosed, s)

/-- Modelled from the spec: the finalize request (§4.6): the builder is
asked to finish; the session transitions to `Closed` on success and to
`Aborted` on any failure during finalize. -/
def Session.finalize (s : Session) : Except PipelineError XtcContainer × Session :=
  match s.state with
  | .opened | .receiving =>
    match s.builder.finish with
    | .ok c =>
      (.ok c, { s with state := .closed, builder := { s.builder with finished := true } })
    | .error e => (.error e, { s with state := .aborted })
  | _ => (.error .SessionClosed, s)

end Pipeline

namespace Shim

lemma foldl_set_length (l : List Nat) (g : Nat → Nat) (v : Nat) (buf : List Nat) :
    (l.foldl (fun b x => b.set (g x) v) buf).length = buf.length := by
  induction l generalizing buf with
  | nil => rfl
  | cons a t ih => rw [List.foldl_cons, ih, List.length_set]

lemma getElem?_setRun (v start : Nat) : ∀ (n : Nat) (buf : List Nat) (off : Nat),
    start + n ≤ 2 ^ 32 →
    ((List.range n).foldl (fun b x => b.set ((start + x) % 2 ^ 32) v) buf)[off]? =
      if start ≤ off ∧ off < start + n ∧ off < buf.length then some v
      else buf[off]? := by
  intro n
  induction n with
  | zero =>
    intro buf off _
    rw [if_neg (by omega)]; rfl
  | succ n ih =>
    intro buf off hnw
    rw [List.range_succ, List.foldl_append, List.foldl_cons, List.foldl_nil]
    have hmod : (start + n) % 2 ^ 32 = start + n := Nat.mod_eq_of_lt (by omega)
    rw [hmod]
    by_cases hoff : off = start + n
    · subst hoff
      by_cases hlen : start + n < buf.length
      · have hlen' : start + n <
            ((List.range n).foldl
              (fun b x => b.set ((start + x) % 2 ^ 32) v) buf).length := by
          rw [foldl_set_length]; exact hlen
        rw [List.getElem?_set_eq_of_lt v hlen']
        have hc : start ≤ start + n ∧ start + n < start + (n + 1) ∧
            start + n < buf.length := by omega
        rw [if_pos hc]
      · rw [List.set_eq_of_length_le (by rw [foldl_set_length]; omega),
          ih buf (start + n) (by omega)]
        split_ifs with h1 h2 <;> first | rfl | omega
    · rw [List.getElem?_set_ne (fun hh => hoff hh.symm), ih buf off (by omega)]
      split_ifs with h1 h2 <;> first | rfl | omega

lemma getElem?_setRun_high (v start off : Nat) (hoff : 2 ^ 32 ≤ off) :
    ∀ (n : Nat) (buf : List Nat),
    ((List.range n).foldl (fun b x => b.set ((start + x) % 2 ^ 32) v) buf)[off]? =
      buf[off]? := by
  intro n
  induction n with
  | zero => intro buf; rfl
  | succ n ih =>
    intro buf
    rw [List.range_succ, List.foldl_append, List.foldl_cons, List.foldl_nil]
    have hne : (start + n) % 2 ^ 32 ≠ off := by
      have := Nat.mod_lt (start + n) (show 0 < 2 ^ 32 by norm_num)
      omega
    rw [List.getElem?_set_ne hne, ih buf]

lemma fillBuffer_succ (p stride rows : Nat) (buf : List Nat) :
    fillBuffer p stride (rows + 1) buf =
      (List.range stride).foldl
        (fun b2 x => b2.set ((rows * stride + x) % 2 ^ 32) ((p + rows) % 256))
        (fillBuffer p stride rows buf) := by
  unfold fillBuffer
  rw [List.range_succ, List.foldl_append, List.foldl_cons, List.foldl_nil]

lemma fillBuffer_length (p stride rows : Nat) (buf : List Nat) :
    (fillBuffer p stride rows buf).length = buf.length := by
  induction rows with
  | zero => rfl
  | succ n ih => rw [fillBuffer_succ, foldl_set_length, ih]

lemma getElem?_fillBuffer (p stride : Nat) : ∀ (rows : Nat) (buf : List Nat) (off : Nat),
    rows * stride ≤ 2 ^ 32 →
    (fillBuffer p stride rows buf)[off]? =
      if off < rows * stride ∧ off < buf.length then some ((p + off / stride) % 256)
      else buf[off]? := by
  intro rows
  induction rows with
  | zero => intro buf off _; simp [fillBuffer]
  | succ n ih =>
    intro buf off hnw
    have hsm : (n + 1) * stride = n * stride + stride := by ring
    rw [hsm] at hnw
    rw [fillBuffer_succ,
      getElem?_setRun ((p + n) % 256) (n * stride) stride
        (fillBuffer p stride n buf) off (by omega),
      fillBuffer_length, ih buf off (by omega), hsm]
    by_cases hA : n * stride ≤ off ∧ off < n * stride + stride ∧ off < buf.length
    · rw [if_pos hA]
      have hstride : 0 < stride := by omega
      have hdiv : off / stride = n := by
        have h2 : off - n * stride < stride := by omega
        have h3 : off = (off - n * stride) + n * stride := by omega
        rw [h3, Nat.add_mul_div_right _ _ hstride, Nat.div_eq_of_lt h2, Nat.zero_add]
      rw [hdiv, if_pos (And.intro hA.2.1 hA.2.2)]
    · rw [if_neg hA]
      split_ifs with h1 h2 <;> first | rfl | omega

lemma getElem?_fillBuffer_high (p stride off : Nat) (hoff : 2 ^ 32 ≤ off) :
    ∀ (rows : Nat) (buf : List Nat),
    (fillBuffer p stride rows buf)[off]? = buf[off]? := by
  intro rows
  induction rows with
  | zero => intro buf; rfl
  | succ n ih =>
    intro buf
    rw [fillBuffer_succ, getElem?_setRun_high _ _ _ hoff, ih buf]

lemma validate_surface_cases (surface : Option CreRenderSurface) :
    validate_surface surface = .ok ∨ validate_surface surface = .invalidArgument := by
  rcases surface with _ | s
  · right; rfl
  · simp only [validate_surface]
    split_ifs <;> simp

lemma validate_surface_eq_ok_iff (surface : Option CreRenderSurface) :
    validate_surface surface = .ok ↔
      ∃ s, surface = some s ∧ s.data ≠ none ∧ s.stride ≠ 0 ∧ s.size.width ≠ 0 ∧
        s.size.height ≠ 0 ∧ s.format ≠ .invalid := by
  rcases surface with _ | s
  · constructor
    · intro h; simp [validate_surface] at h
    · rintro ⟨s, hs, _⟩; cases hs
  · constructor
    · intro h
      refine ⟨s, rfl, ?_, ?_, ?_, ?_, ?_⟩ <;>
        { intro hc; simp [validate_surface, hc] at h }
    · rintro ⟨s', hs', hdata, hstr, hw, hh, hf⟩
      cases hs'
      simp [validate_surface, hdata, hstr, hw, hh, hf]

lemma render_ok_reduce (d : CreDocument) (page_index : Nat) (s : CreRenderSurface)
    (buf : List Nat) (hdata : s.data = some buf)
    (hok : (cre_render_page (some d) page_index (some s)).1 = .ok) :
    cre_render_page (some d) page_index (some s) =
      (.ok, some { s with data := some (fillBuffer page_index s.stride s.size.height buf) }) := by
  by_cases hpi : d.pages ≤ page_index
  · simp [cre_render_page, hpi] at hok
  · rcases validate_surface_cases (some s) with hv | hv
    · simp [cre_render_page, hpi, hv, hdata]
    · simp [cre_render_page, hpi, hv] at hok

/-- C8: cre_render_page returns CRE_RESULT_OK exactly when the document
is non-null, the page index is below the document's page count, and the
surface is non-null with non-null data, nonzero stride, nonzero width
and height, and a format other than CRE_SURFACE_FORMAT_INVALID; in
every other case it returns CRE_RESULT_INVALID_ARGUMENT and leaves the
surface buffer untouched. -/
theorem cre_render_page_ok_iff (doc : Option CreDocument) (page_index : Nat)
    (surface : Option CreRenderSurface) :
    ((cre_render_page doc page_index surface).1 = .ok ↔
      ((∃ d, doc = some d ∧ page_index < d.pages) ∧
       (∃ s, surface = some s ∧ s.data ≠ none ∧ s.stride ≠ 0 ∧
         s.size.width ≠ 0 ∧ s.size.height ≠ 0 ∧ s.format ≠ .invalid))) ∧
    ((cre_render_page doc page_index surface).1 ≠ .ok →
      (cre_render_page doc page_index surface).1 = .invalidArgument ∧
      (cre_render_page doc page_index surface).2 = surface) := by
  constructor
  · rcases doc with _ | d
    · constructor
      · intro h; simp [cre_render_page] at h
      · rintro ⟨⟨d, hd, _⟩, _⟩; cases hd
    · by_cases hpi : d.pages ≤ page_index
      · constructor
        · intro h; simp [cre_render_page, hpi] at h
        · rintro ⟨⟨d', hd', hlt⟩, _⟩
          injection hd' with hdd
          subst hdd
          exact absurd hlt (by omega)
      · constructor
        · intro h
          refine ⟨⟨d, rfl, by omega⟩, ?_⟩
          rw [← validate_surface_eq_ok_iff]
          rcases validate_surface_cases surface with hv | hv
          · exact hv
          · simp [cre_render_page, hpi, hv] at h
        · rintro ⟨⟨d', hd', hlt⟩, hsurf⟩
          have hv : validate_surface surface = .ok :=
            (validate_surface_eq_ok_iff surface).mpr hsurf
          obtain ⟨s, rfl, hdata, _⟩ := hsurf
          rcases hs : s.data with _ | buf
          · exact absurd hs hdata
          · simp [cre_render_page, hpi, hv, hs]
  · intro hne
    rcases doc with _ | d
    · exact ⟨rfl, rfl⟩
    · by_cases hpi : d.pages ≤ page_index
      · constructor <;> simp [cre_render_page, hpi]
      · rcases validate_surface_cases surface with hok | hbad
        · obtain ⟨s, rfl, hdata, _⟩ := (validate_surface_eq_ok_iff surface).mp hok
          rcases hs : s.data with _ | buf
          · exact absurd hs hdata
          · exfalso; apply hne; simp [cre_render_page, hpi, hok, hs]
        · constructor <;> simp [cre_render_page, hpi, hbad]

/-- C8 witness: a concrete successful render call. -/
theorem cre_render_page_ok_iff_witness :
    (cre_render_page (some { pages := 1 }) 0
      (some { data := some [7, 7, 7], stride := 3,
              size := { width := 3, height := 1 }, format := .gray8 })).1 = .ok :=
  (cre_render_page_ok_iff (some { pages := 1 }) 0
      (some { data := some [7, 7, 7], stride := 3,
              size := { width := 3, height := 1 }, format := .gray8 })).1.mpr
    ⟨⟨{ pages := 1 }, rfl, by decide⟩,
     ⟨{ data := some [7, 7, 7], stride := 3,
        size := { width := 3, height := 1 }, format := .gray8 }, rfl,
      by decide, by decide, by decide, by decide, by decide⟩⟩

/-- C9 (amended): whenever cre_render_page returns CRE_RESULT_OK and
height * stride ≤ 2^32 — so the uint32_t offset computation in the C
fill loop cannot wrap — the buffer holds the value (page_index + y)
mod 256 at every offset y*stride + x with y < height and x < stride,
every byte beyond height*stride is untouched, and the written contents
depend only on page_index, the height, the stride and the input buffer
— not on the document or surface format. Without the no-wrap bound the
claim fails: see the counterexample below. -/
theorem cre_render_page_fill_pattern (d : CreDocument) (page_index : Nat)
    (s : CreRenderSurface) (buf : List Nat)
    (hdata : s.data = some buf)
    (hlen : s.size.height * s.stride ≤ buf.length)
    (hnw : s.size.height * s.stride ≤ 2 ^ 32)
    (hok : (cre_render_page (some d) page_index (some s)).1 = .ok) :
    ∃ buf',
      (cre_render_page (some d) page_index (some s)).2 =
        some { s with data := some buf' } ∧
      buf'.length = buf.length ∧
      (∀ y x, y < s.size.height → x < s.stride →
        buf'[y * s.stride + x]? = some ((page_index + y) % 256)) ∧
      (∀ off, s.size.height * s.stride ≤ off → buf'[off]? = buf[off]?) ∧
      (∀ (d2 : CreDocument) (s2 : CreRenderSurface),
        s2.data = some buf → s2.stride = s.stride → s2.size.height = s.size.height →
        (cre_render_page (some d2) page_index (some s2)).1 = .ok →
        (cre_render_page (some d2) page_index (some s2)).2 =
          some { s2 with data := some buf' }) := by
  refine ⟨fillBuffer page_index s.stride s.size.height buf, ?_, ?_, ?_, ?_, ?_⟩
  · rw [render_ok_reduce d page_index s buf hdata hok]
  · exact fillBuffer_length page_index s.stride s.size.height buf
  · intro y x hy hx
    have hstride : 0 < s.stride := by omega
    have hofflt : y * s.stride + x < s.size.height * s.stride := by
      have h1 : (y + 1) * s.stride = y * s.stride + s.stride := by ring
      have h2 : (y + 1) * s.stride ≤ s.size.height * s.stride :=
        Nat.mul_le_mul_right _ (by omega)
      omega
    rw [getElem?_fillBuffer page_index s.stride s.size.height buf
        (y * s.stride + x) hnw,
      if_pos ⟨hofflt, by omega⟩]
    have hdiv : (y * s.stride + x) / s.stride = y := by
      have hcomm : y * s.stride + x = x + y * s.stride := by ring
      rw [hcomm, Nat.add_mul_div_right _ _ hstride, Nat.div_eq_of_lt hx, Nat.zero_add]
    rw [hdiv]
  · intro off hoff
    rw [getElem?_fillBuffer page_index s.stride s.size.height buf off hnw,
      if_neg (by omega)]
  · intro d2 s2 hd2 hstr2 hh2 hok2
    rw [render_ok_reduce d2 page_index s2 buf hd2 hok2, hstr2, hh2]

/-- C9 witness: the pattern theorem applied to a concrete 2×2 surface
with stride 3. -/
theorem cre_render_page_fill_pattern_witness :
    (({ data := some [9, 9, 9, 9, 9, 9], stride := 3,
        size := { width := 2, height := 2 },
        format := .gray8 } : CreRenderSurface).data = some [9, 9, 9, 9, 9, 9]) ∧
    (∃ buf',
      (cre_render_page (some { pages := 1 }) 0
        (some { data := some [9, 9, 9, 9, 9, 9], stride := 3,
                size := { width := 2, height := 2 }, format := .gray8 })).2 =
        some { ({ data := some [9, 9, 9, 9, 9, 9], stride := 3,
                  size := { width := 2, height := 2 },
                  format := .gray8 } : CreRenderSurface) with data := some buf' } ∧
      buf'.length = ([9, 9, 9, 9, 9, 9] : List Nat).length ∧
      (∀ y x, y < 2 → x < 3 → buf'[y * 3 + x]? = some ((0 + y) % 256)) ∧
      (∀ off, 2 * 3 ≤ off → buf'[off]? = ([9, 9, 9, 9, 9, 9] : List Nat)[off]?) ∧
      (∀ (d2 : CreDocument) (s2 : CreRenderSurface),
        s2.data = some [9, 9, 9, 9, 9, 9] → s2.stride = 3 → s2.size.height = 2 →
        (cre_render_page (some d2) 0 (some s2)).1 = .ok →
        (cre_render_page (some d2) 0 (some s2)).2 =
          some { s2 with data := some buf' })) :=
  ⟨rfl,
    cre_render_page_fill_pattern { pages := 1 } 0
      { data := some [9, 9, 9, 9, 9, 9], stride := 3,
        size := { width := 2, height := 2 }, format := .gray8 }
      [9, 9, 9, 9, 9, 9] rfl (by decide) (by decide) rfl⟩

/-- C9 counterexample: with stride 3 and height 1431655766 the offsets
reach height * stride = 2^32 + 2, so the C shim's uint32_t offset
arithmetic wraps. The call succeeds on a buffer of exactly that length,
yet the byte at the in-range offset y*stride + x for y = 1431655765,
x = 2 — which the unamended claim says was written with
(page_index + y) mod 256 = 85 — still holds its original value 9,
because the write for that (y, x) landed at the wrapped offset 1
instead. -/
theorem cre_render_page_fill_pattern_counterexample :
    (cre_render_page (some ⟨1⟩) 0
      (some ⟨some (List.replicate (2 ^ 32 + 2) 9), 3, ⟨3, 1431655766⟩, .gray8⟩)).1 =
      .ok ∧
    1431655766 * 3 ≤ (List.replicate (2 ^ 32 + 2) (9 : Nat)).length ∧
    1431655765 < 1431655766 ∧ 2 < 3 ∧
    (cre_render_page (some ⟨1⟩) 0
      (some ⟨some (List.replicate (2 ^ 32 + 2) 9), 3, ⟨3, 1431655766⟩, .gray8⟩)).2 =
      some ⟨some (fillBuffer 0 3 1431655766 (List.replicate (2 ^ 32 + 2) 9)), 3,
        ⟨3, 1431655766⟩, .gray8⟩ ∧
    (fillBuffer 0 3 1431655766 (List.replicate (2 ^ 32 + 2) 9))[1431655765 * 3 + 2]? =
      some 9 ∧
    (9 : Nat) ≠ (0 + 1431655765) % 256 := by
  refine ⟨rfl, ?_, by omega, by omega, ?_, ?_, by decide⟩
  · rw [List.length_replicate]
    norm_num
  · have h := render_ok_reduce ⟨1⟩ 0
      ⟨some (List.replicate (2 ^ 32 + 2) 9), 3, ⟨3, 1431655766⟩, .gray8⟩
      (List.replicate (2 ^ 32 + 2) 9) rfl rfl
    rw [h]
  · rw [getElem?_fillBuffer_high 0 3 (1431655765 * 3 + 2) (by norm_num)
        1431655766 (List.replicate (2 ^ 32 + 2) 9),
      List.getElem?_replicate, if_pos (by norm_num)]

/-- C10: a freshly opened document has page count 0, so rendering any
page fails with CRE_RESULT_INVALID_ARGUMENT before layout;
cre_layout_document with non-null arguments always sets the page count
to exactly 1 regardless of the config contents; and cre_page_count
reports the stored count whenever both pointers are non-null. -/
theorem shim_document_lifecycle :
    (∀ (path : Option String) (doc : CreDocument) (st : CreResult),
      cre_open_document path = (some doc, st) →
      doc.pages = 0 ∧
      ∀ (page_index : Nat) (surface : Option CreRenderSurface),
        cre_render_page (some doc) page_index surface = (.invalidArgument, surface)) ∧
    (∀ (d : CreDocument) (config : CreLayoutConfig),
      cre_layout_document (some d) (some config) = (.ok, some { pages := 1 })) ∧
    (∀ (d : CreDocument) (p : Nat),
      cre_page_count (some d) (some p) = (.ok, some d.pages)) := by
  refine ⟨?_, ?_, ?_⟩
  · intro path doc st h
    rcases path with _ | p
    · exact absurd h (by simp [cre_open_document])
    · have hdoc : doc = { pages := 0 } := by
        have h' : (some { pages := 0 }, CreResult.ok) = (some doc, st) := h
        injection h' with h1 h2
        injection h1 with h3
        exact h3.symm
      subst hdoc
      refine ⟨rfl, ?_⟩
      intro page_index surface
      simp [cre_render_page]
  · intro d config; rfl
  · intro d p; rfl

/-- C10 witness: opening a document at a concrete path and rendering
page 5 on it before layout. -/
theorem shim_document_lifecycle_witness :
    cre_open_document (some "book.epub") = (some { pages := 0 }, .ok) ∧
    ({ pages := 0 } : CreDocument).pages = 0 ∧
    cre_render_page (some { pages := 0 }) 5 none = (.invalidArgument, none) :=
  ⟨rfl, (shim_document_lifecycle.1 (some "book.epub") { pages := 0 } .ok rfl).1,
    (shim_document_lifecycle.1 (some "book.epub") { pages := 0 } .ok rfl).2 5 none⟩

end Shim

namespace Pipeline

lemma chunkOfByte_length (B k n : Nat) : (chunkOfByte B k n).length = k := by
  induction k generalizing n with
  | zero => rfl
  | succ k ih => simp [chunkOfByte, ih]

lemma byteOfChunk_chunkOfByte (B k n : Nat) (h : n < B ^ k) :
    byteOfChunk B (chunkOfByte B k n) = n := by
  induction k generalizing n with
  | zero =>
    simp only [chunkOfByte, byteOfChunk]
    simp only [pow_zero] at h
    omega
  | succ k ih =>
    have hB : 0 < B := by
      rcases Nat.eq_zero_or_pos B with rfl | hB
      · simp at h
      · exact hB
    simp only [chunkOfByte, byteOfChunk]
    rw [ih (n / B) (by rw [Nat.div_lt_iff_lt_mul hB, ← pow_succ]; exact h)]
    exact Nat.mod_add_div n B

lemma chunkOfByte_byteOfChunk (B : Nat) (c : List Nat) (hval : ∀ v ∈ c, v < B) :
    chunkOfByte B c.length (byteOfChunk B c) = c := by
  induction c with
  | nil => rfl
  | cons v rest ih =>
    have hv : v < B := hval v (by simp)
    have hB : 0 < B := by omega
    simp only [List.length_cons, chunkOfByte, byteOfChunk]
    have h1 : (v + B * byteOfChunk B rest) % B = v := by
      rw [Nat.add_mul_mod_self_left, Nat.mod_eq_of_lt hv]
    have h2 : (v + B * byteOfChunk B rest) / B = byteOfChunk B rest := by
      rw [Nat.add_mul_div_left _ _ hB, Nat.div_eq_of_lt hv, Nat.zero_add]
    rw [h1, h2, ih (fun u hu => hval u (by simp [hu]))]

lemma padTo_length (k : Nat) (c : List Nat) (h : c.length ≤ k) :
    (padTo k c).length = k := by
  simp [padTo]; omega

lemma padTo_eq_self (k : Nat) (c : List Nat) (h : c.length = k) : padTo k c = c := by
  simp [padTo, h]

lemma padTo_mem_lt (k : Nat) (c : List Nat) (B : Nat) (hB : 0 < B)
    (h : ∀ v ∈ c, v < B) : ∀ v ∈ padTo k c, v < B := by
  intro v hv
  rcases List.mem_append.mp hv with hv | hv
  · exact h v hv
  · rw [List.eq_of_mem_replicate hv]; exact hB

lemma packChunks_length (B k : Nat) : ∀ (n : Nat) (vs : List Nat),
    (packChunks B k n vs).length = n := by
  intro n
  induction n with
  | zero => intro vs; rfl
  | succ n ih => intro vs; simp [packChunks, ih]

lemma packStream_length (B k : Nat) (vs : List Nat) :
    (packStream B k vs).length = (vs.length + k - 1) / k := by
  rw [packStream, packChunks_length]

lemma le_ceil_mul (k a : Nat) (hk : 0 < k) : a ≤ ((a + k - 1) / k) * k := by
  have h1 := Nat.div_add_mod (a + k - 1) k
  have h2 : (a + k - 1) % k < k := Nat.mod_lt _ hk
  rw [Nat.mul_comm]
  omega

lemma unpack_packChunks (B k : Nat) (hB : 1 < B) :
    ∀ (n : Nat) (vs : List Nat), (∀ v ∈ vs, v < B) → vs.length ≤ n * k →
    (((packChunks B k n vs).map (chunkOfByte B k)).flatten).take vs.length = vs := by
  intro n
  induction n with
  | zero =>
    intro vs _ hlen
    have : vs = [] := List.eq_nil_of_length_eq_zero (by omega)
    subst this; rfl
  | succ n ih =>
    intro vs hval hlen
    simp only [packChunks, List.map_cons, List.flatten_cons]
    have htklen : (vs.take k).length ≤ k := by
      rw [List.length_take]; omega
    have hchunk : chunkOfByte B k (byteOfChunk B (padTo k (vs.take k))) =
        padTo k (vs.take k) := by
      have hpl : (padTo k (vs.take k)).length = k := padTo_length _ _ htklen
      have hcb := chunkOfByte_byteOfChunk B (padTo k (vs.take k))
        (padTo_mem_lt _ _ _ (by omega) (fun v hv => hval v (List.mem_of_mem_take hv)))
      rw [hpl] at hcb
      exact hcb
    rw [hchunk]
    by_cases hle : vs.length ≤ k
    · rw [List.take_of_length_le hle]
      rw [show padTo k vs ++ ((packChunks B k n (vs.drop k)).map (chunkOfByte B k)).flatten =
        vs ++ (List.replicate (k - vs.length) 0 ++
          ((packChunks B k n (vs.drop k)).map (chunkOfByte B k)).flatten) from by
        rw [padTo, List.append_assoc]]
      exact List.take_left vs _
    · have htk : (vs.take k).length = k := by rw [List.length_take]; omega
      rw [padTo_eq_self _ _ htk, List.take_append_eq_append_take, htk]
      have h1 : (vs.take k).take vs.length = vs.take k := by
        rw [List.take_take, Nat.min_eq_right (by omega)]
      have hsm : (n + 1) * k = n * k + k := by ring
      have hrest := ih (vs.drop k) (fun v hv => hval v (List.mem_of_mem_drop hv))
        (by rw [List.length_drop]; omega)
      rw [List.length_drop] at hrest
      rw [h1, hrest]
      exact List.take_append_drop k vs

lemma stream_roundtrip (B k : Nat) (hB : 1 < B) (hk : 0 < k) (vs : List Nat)
    (hval : ∀ v ∈ vs, v < B) :
    unpackStream B k vs.length (packStream B k vs) = vs := by
  rw [unpackStream, packStream]
  exact unpack_packChunks B k hB _ vs hval (le_ceil_mul k vs.length hk)

lemma unpackRows_pack (B k rowLen : Nat) (hB : 1 < B) (hk : 0 < k)
    (rows : List (List Nat))
    (hlen : ∀ r ∈ rows, r.length = rowLen)
    (hval : ∀ r ∈ rows, ∀ v ∈ r, v < B) :
    unpackRows B k rowLen rows.length ((rows.map (packStream B k)).flatten) = rows := by
  induction rows with
  | nil => rfl
  | cons r rest ih =>
    simp only [List.map_cons, List.flatten_cons, List.length_cons, unpackRows]
    have hrlen : r.length = rowLen := hlen r (by simp)
    have hplen : (packStream B k r).length = (rowLen + k - 1) / k := by
      rw [packStream_length, hrlen]
    have htake : (packStream B k r ++ (rest.map (packStream B k)).flatten).take
        ((rowLen + k - 1) / k) = packStream B k r := by
      rw [← hplen]; exact List.take_left _ _
    have hdrop : (packStream B k r ++ (rest.map (packStream B k)).flatten).drop
        ((rowLen + k - 1) / k) = (rest.map (packStream B k)).flatten := by
      rw [← hplen]; exact List.drop_left _ _
    rw [htake, hdrop]
    congr 1
    · rw [← hrlen]
      exact stream_roundtrip B k hB hk r (hval r (by simp))
    · exact ih (fun q hq => hlen q (by simp [hq])) (fun q hq => hval q (by simp [hq]))

lemma packRows_flatten_length (B k rowLen : Nat) (rows : List (List Nat))
    (hlen : ∀ r ∈ rows, r.length = rowLen) :
    ((rows.map (packStream B k)).flatten).length =
      rows.length * ((rowLen + k - 1) / k) := by
  induction rows with
  | nil => simp
  | cons r rest ih =>
    simp only [List.map_cons, List.flatten_cons, List.length_append, List.length_cons]
    rw [packStream_length, hlen r (by simp),
      ih (fun q hq => hlen q (by simp [hq]))]
    ring

lemma map_range_getD (l : List Nat) (w : Nat) (h : w ≤ l.length) :
    (List.range w).map (fun x => l.getD x 0) = l.take w := by
  induction w with
  | zero => simp
  | succ w ih =>
    rw [List.range_succ, List.map_append, ih (by omega), List.take_succ]
    simp [List.getD_eq_getElem?_getD, List.getElem?_eq_getElem (show w < l.length by omega)]

lemma flatten_rowsOf (w h : Nat) (pixels : List Nat) (hlen : pixels.length = h * w) :
    (rowsOf w h pixels).flatten = pixels := by
  induction h generalizing pixels with
  | zero =>
    have hnil : pixels = [] :=
      List.eq_nil_of_length_eq_zero (by rw [hlen, Nat.zero_mul])
    subst hnil
    simp [rowsOf]
  | succ h ih =>
    have hlen' : pixels.length = h * w + w := by rw [hlen]; ring
    rw [rowsOf, List.range_succ_eq_map]
    simp only [List.map_cons, List.map_map, List.flatten_cons]
    have h0 : (List.range w).map (fun x => pixels.getD (0 * w + x) 0) = pixels.take w := by
      simp only [Nat.zero_mul, Nat.zero_add]
      have hw : w ≤ pixels.length := by rw [hlen']; omega
      exact map_range_getD pixels w hw
    have hrest : (List.range h).map
        ((fun y => (List.range w).map fun x => pixels.getD (y * w + x) 0) ∘ Nat.succ) =
        rowsOf w h (pixels.drop w) := by
      rw [rowsOf]
      apply List.map_congr_left
      intro y hy
      simp only [Function.comp]
      apply List.map_congr_left
      intro x hx
      rw [List.getD_eq_getElem?_getD, List.getD_eq_getElem?_getD, List.getElem?_drop]
      congr 2
      rw [Nat.succ_eq_add_one]
      ring
    rw [h0, hrest, ih (pixels.drop w) (by rw [List.length_drop, hlen']; omega)]
    exact List.take_append_drop w pixels

lemma getD_map_range {α : Type} (f : Nat → α) (n x : Nat) (hx : x < n) (d : α) :
    ((List.range n).map f).getD x d = f x := by
  rw [List.getD_eq_getElem?_getD, List.getElem?_map, List.getElem?_range hx]
  rfl

lemma rowsFromColumns_columnsOf (w h : Nat) (pixels : List Nat)
    (hlen : pixels.length = h * w) :
    rowsFromColumns w h (columnsOf w h pixels) = pixels := by
  rw [rowsFromColumns]
  have hcongr : (List.range h).map (fun y => (List.range w).map
      (fun x => ((columnsOf w h pixels).getD x []).getD y 0)) = rowsOf w h pixels := by
    rw [rowsOf]
    apply List.map_congr_left
    intro y hy
    apply List.map_congr_left
    intro x hx
    rw [columnsOf, getD_map_range _ _ _ (List.mem_range.mp hx),
      getD_map_range _ _ _ (List.mem_range.mp hy)]
  rw [hcongr]
  exact flatten_rowsOf w h pixels hlen

lemma grayLut_lt_four (v : Nat) : grayLut v < 4 := by
  rcases v with _ | _ | _ | v <;> simp [grayLut]

lemma grayLut_invol (v : Nat) (h : v < 4) : grayLut (grayLut v) = v := by
  interval_cases v <;> rfl

lemma map_map_grayLut (l : List Nat) (h : ∀ v ∈ l, v < 4) :
    (l.map grayLut).map grayLut = l := by
  rw [List.map_map]
  have hc : l.map (grayLut ∘ grayLut) = l.map id :=
    List.map_congr_left (fun v hv => grayLut_invol v (h v hv))
  rw [hc, List.map_id]

lemma leBytes_length (n v : Nat) : (leBytes n v).length = n :=
  chunkOfByte_length 256 n v

lemma readLE_append (pre mid post : List Nat) (off n : Nat)
    (hoff : pre.length = off) (hn : mid.length = n) :
    readLE (pre ++ (mid ++ post)) off n = byteOfChunk 256 mid := by
  rw [readLE, ← hoff, List.drop_left, ← hn, List.take_left]

lemma pageHeader_length (fmt : PageFormat) (w h plen : Nat) :
    (pageHeader fmt w h plen).length = 22 := by
  simp [pageHeader, leBytes_length]

lemma pageHeader_assoc (fmt : PageFormat) (w h plen : Nat) :
    pageHeader fmt w h plen =
      leBytes 2 fmt.tag ++ (leBytes 4 w ++ (leBytes 4 h ++
        (leBytes 4 plen ++ List.replicate 8 0))) := by
  simp [pageHeader, List.append_assoc]

lemma pageHeader_fields (fmt : PageFormat) (w h plen : Nat)
    (hw : w < 256 ^ 4) (hh : h < 256 ^ 4) (hp : plen < 256 ^ 4) :
    readLE (pageHeader fmt w h plen) 0 2 = fmt.tag ∧
    readLE (pageHeader fmt w h plen) 2 4 = w ∧
    readLE (pageHeader fmt w h plen) 6 4 = h ∧
    readLE (pageHeader fmt w h plen) 10 4 = plen := by
  have htag : fmt.tag < 256 ^ 2 := by
    cases fmt <;> simp [PageFormat.tag]
  refine ⟨?_, ?_, ?_, ?_⟩
  · have happ := readLE_append [] (leBytes 2 fmt.tag)
      (leBytes 4 w ++ (leBytes 4 h ++ (leBytes 4 plen ++ List.replicate 8 0)))
      0 2 rfl (leBytes_length 2 fmt.tag)
    rw [List.nil_append] at happ
    rw [pageHeader_assoc, happ]
    exact byteOfChunk_chunkOfByte 256 2 fmt.tag htag
  · rw [pageHeader_assoc,
      readLE_append _ _ _ _ _ (leBytes_length 2 fmt.tag) (leBytes_length 4 w)]
    exact byteOfChunk_chunkOfByte 256 4 w hw
  · rw [pageHeader_assoc,
      show (leBytes 2 fmt.tag ++ (leBytes 4 w ++ (leBytes 4 h ++
        (leBytes 4 plen ++ List.replicate 8 0)))) =
        (leBytes 2 fmt.tag ++ leBytes 4 w) ++ (leBytes 4 h ++
          (leBytes 4 plen ++ List.replicate 8 0)) from by
        simp [List.append_assoc],
      readLE_append _ _ _ _ _ (by simp [leBytes_length]) (leBytes_length 4 h)]
    exact byteOfChunk_chunkOfByte 256 4 h hh
  · rw [pageHeader_assoc,
      show (leBytes 2 fmt.tag ++ (leBytes 4 w ++ (leBytes 4 h ++
        (leBytes 4 plen ++ List.replicate 8 0)))) =
        (leBytes 2 fmt.tag ++ leBytes 4 w ++ leBytes 4 h) ++ (leBytes 4 plen ++
          List.replicate 8 0) from by simp [List.append_assoc],
      readLE_append _ _ _ _ _ (by simp [leBytes_length]) (leBytes_length 4 plen)]
    exact byteOfChunk_chunkOfByte 256 4 plen hp

lemma containerHeader_length (c : XtcContainer) : (containerHeader c).length = 56 := by
  simp [containerHeader, leBytes_length]

lemma rowsOf_length (w h : Nat) (pixels : List Nat) : (rowsOf w h pixels).length = h := by
  simp [rowsOf]

lemma columnsOf_length (w h : Nat) (pixels : List Nat) :
    (columnsOf w h pixels).length = w := by
  simp [columnsOf]

lemma rowsOf_mem_length (w h : Nat) (pixels : List Nat) :
    ∀ r ∈ rowsOf w h pixels, r.length = w := by
  intro r hr
  rw [rowsOf] at hr
  obtain ⟨y, _, rfl⟩ := List.mem_map.mp hr
  simp

lemma columnsOf_mem_length (w h : Nat) (pixels : List Nat) :
    ∀ c ∈ columnsOf w h pixels, c.length = h := by
  intro c hc
  rw [columnsOf] at hc
  obtain ⟨x, _, rfl⟩ := List.mem_map.mp hc
  simp

lemma getD_lt (pixels : List Nat) (i B : Nat) (hB : 0 < B)
    (hpix : ∀ v ∈ pixels, v < B) : pixels.getD i 0 < B := by
  by_cases hi : i < pixels.length
  · rw [List.getD_eq_getElem pixels 0 hi]
    exact hpix _ (List.getElem_mem hi)
  · rw [List.getD_eq_default pixels 0 (by omega)]
    exact hB

lemma rowsOf_mem_val (w h : Nat) (pixels : List Nat) (B : Nat) (hB : 0 < B)
    (hpix : ∀ v ∈ pixels, v < B) :
    ∀ r ∈ rowsOf w h pixels, ∀ v ∈ r, v < B := by
  intro r hr v hv
  rw [rowsOf] at hr
  obtain ⟨y, _, rfl⟩ := List.mem_map.mp hr
  obtain ⟨x, _, rfl⟩ := List.mem_map.mp hv
  exact getD_lt pixels _ B hB hpix

lemma columnsOf_mem_val (w h : Nat) (pixels : List Nat) (B : Nat) (hB : 0 < B)
    (hpix : ∀ v ∈ pixels, v < B) :
    ∀ c ∈ columnsOf w h pixels, ∀ v ∈ c, v < B := by
  intro c hc v hv
  rw [columnsOf] at hc
  obtain ⟨x, _, rfl⟩ := List.mem_map.mp hc
  obtain ⟨y, _, rfl⟩ := List.mem_map.mp hv
  exact getD_lt pixels _ B hB hpix

lemma encodeMonoPayload_length (q : QuantizedRaster) :
    (encodeMonoPayload q).length = q.height * ((q.width + 7) / 8) := by
  rw [encodeMonoPayload,
    packRows_flatten_length 2 8 q.width _ (rowsOf_mem_length _ _ _), rowsOf_length]
  rfl

lemma encodeGrayPayload_length (q : QuantizedRaster) :
    (encodeGrayPayload q).length = q.width * ((q.height + 3) / 4) := by
  rw [encodeGrayPayload]
  have hmm : (columnsOf q.width q.height q.pixels).map
      (fun col => packStream 4 4 (col.map grayLut)) =
      ((columnsOf q.width q.height q.pixels).map (List.map grayLut)).map
        (packStream 4 4) := by
    rw [List.map_map]; rfl
  have hrl : ∀ r ∈ (columnsOf q.width q.height q.pixels).map (List.map grayLut),
      r.length = q.height := by
    intro r hr
    obtain ⟨c, hc, rfl⟩ := List.mem_map.mp hr
    rw [List.length_map]
    exact columnsOf_mem_length _ _ _ c hc
  rw [hmm, packRows_flatten_length 4 4 q.height _ hrl, List.length_map, columnsOf_length]
  rfl

lemma encodeMonoPayload_lt (q : QuantizedRaster) (hwh : q.width * q.height < 2 ^ 32) :
    (encodeMonoPayload q).length < 2 ^ 32 := by
  rw [encodeMonoPayload_length]
  have h1 : (q.width + 7) / 8 ≤ q.width := by omega
  have h2 : q.height * ((q.width + 7) / 8) ≤ q.height * q.width :=
    Nat.mul_le_mul_left _ h1
  have h3 : q.height * q.width = q.width * q.height := Nat.mul_comm _ _
  omega

lemma encodeGrayPayload_lt (q : QuantizedRaster) (hwh : q.width * q.height < 2 ^ 32) :
    (encodeGrayPayload q).length < 2 ^ 32 := by
  rw [encodeGrayPayload_length]
  have h1 : (q.height + 3) / 4 ≤ q.height := by omega
  have h2 : q.width * ((q.height + 3) / 4) ≤ q.width * q.height :=
    Nat.mul_le_mul_left _ h1
  omega

/-- C5: the encoded page header is exactly 22 bytes, its multi-byte
fields are little-endian, and it contains the format tag, the pixel
width, the pixel height and the payload byte length; the container
header is exactly 56 bytes. -/
theorem encode_header_layout (q : QuantizedRaster) (fmt : PageFormat)
    (hw : q.width < 2 ^ 32) (hh : q.height < 2 ^ 32)
    (hwh : q.width * q.height < 2 ^ 32) :
    (encode q fmt).header.length = 22 ∧
    readLE (encode q fmt).header 0 2 = fmt.tag ∧
    readLE (encode q fmt).header 2 4 = q.width ∧
    readLE (encode q fmt).header 6 4 = q.height ∧
    readLE (encode q fmt).header 10 4 = (encode q fmt).payload.length ∧
    ∀ c : XtcContainer, (containerHeader c).length = 56 := by
  have h256 : (256 : Nat) ^ 4 = 2 ^ 32 := by norm_num
  have hplt : (encode q fmt).payload.length < 2 ^ 32 := by
    cases fmt
    · exact encodeMonoPayload_lt q hwh
    · exact encodeGrayPayload_lt q hwh
  have henc : (encode q fmt).header =
      pageHeader fmt q.width q.height (encode q fmt).payload.length := by
    cases fmt <;> rfl
  have hfields := pageHeader_fields fmt q.width q.height (encode q fmt).payload.length
    (by omega) (by omega) (by omega)
  refine ⟨?_, ?_, ?_, ?_, ?_, containerHeader_length⟩ <;>
    rw [henc]
  · exact pageHeader_length fmt q.width q.height _
  · exact hfields.1
  · exact hfields.2.1
  · exact hfields.2.2.1
  · exact hfields.2.2.2

/-- C5 witness: header layout of a concrete 3×2 monochrome page. -/
theorem encode_header_layout_witness :
    (encode { width := 3, height := 2, levels := 2, pixels := [1, 0, 1, 0, 1, 1] }
      .monochrome).header.length = 22 ∧
    readLE (encode { width := 3, height := 2, levels := 2, pixels := [1, 0, 1, 0, 1, 1] }
      .monochrome).header 2 4 = 3 :=
  ⟨(encode_header_layout
      { width := 3, height := 2, levels := 2, pixels := [1, 0, 1, 0, 1, 1] }
      .monochrome (by decide) (by decide) (by decide)).1,
   (encode_header_layout
      { width := 3, height := 2, levels := 2, pixels := [1, 0, 1, 0, 1, 1] }
      .monochrome (by decide) (by decide) (by decide)).2.2.1⟩

/-- C2: decoding an encoded page recovers the quantized raster exactly,
for both supported formats — including undoing the column-major
transpose and the lookup-table remapping of the grayscale format. -/
theorem decodePage_encode (q : QuantizedRaster) (fmt : PageFormat)
    (hlen : q.pixels.length = q.height * q.width)
    (hval : ∀ v ∈ q.pixels, v < fmt.levels)
    (hlev : q.levels = fmt.levels)
    (hw : q.width < 2 ^ 32) (hh : q.height < 2 ^ 32)
    (hwh : q.width * q.height < 2 ^ 32) :
    decodePage (encode q fmt) = some q := by
  have h256 : (256 : Nat) ^ 4 = 2 ^ 32 := by norm_num
  cases fmt with
  | monochrome =>
    have hplt : (encodeMonoPayload q).length < 2 ^ 32 := encodeMonoPayload_lt q hwh
    have hfields := pageHeader_fields .monochrome q.width q.height
      (encodeMonoPayload q).length (by omega) (by omega) (by omega)
    have hhl := pageHeader_length .monochrome q.width q.height
      (encodeMonoPayload q).length
    have henc : encode q .monochrome =
        { header := pageHeader .monochrome q.width q.height (encodeMonoPayload q).length
          payload := encodeMonoPayload q } := rfl
    rw [henc, decodePage]
    simp only [hhl, hfields.1, hfields.2.1, hfields.2.2.1, hfields.2.2.2]
    rw [if_neg (by omega), if_neg (by omega), if_pos trivial]
    have hup : unpackRows 2 8 q.width q.height (encodeMonoPayload q) =
        rowsOf q.width q.height q.pixels := by
      rw [encodeMonoPayload]
      have hu := unpackRows_pack 2 8 q.width (by omega) (by omega)
        (rowsOf q.width q.height q.pixels) (rowsOf_mem_length _ _ _)
        (rowsOf_mem_val _ _ _ 2 (by omega) hval)
      rw [rowsOf_length] at hu
      exact hu
    rw [hup, flatten_rowsOf q.width q.height q.pixels hlen]
    have hq : (⟨q.width, q.height, 2, q.pixels⟩ : QuantizedRaster) = q := by
      cases q
      simp only [PageFormat.levels] at hlev
      simp [hlev]
    rw [hq]
  | gray4 =>
    have hplt : (encodeGrayPayload q).length < 2 ^ 32 := encodeGrayPayload_lt q hwh
    have hfields := pageHeader_fields .gray4 q.width q.height
      (encodeGrayPayload q).length (by omega) (by omega) (by omega)
    have hhl := pageHeader_length .gray4 q.width q.height (encodeGrayPayload q).length
    have henc : encode q .gray4 =
        { header := pageHeader .gray4 q.width q.height (encodeGrayPayload q).length
          payload := encodeGrayPayload q } := rfl
    rw [henc, decodePage]
    simp only [hhl, hfields.1, hfields.2.1, hfields.2.2.1, hfields.2.2.2]
    rw [if_neg (by omega), if_neg (by omega), if_neg (by simp [PageFormat.tag]),
      if_pos trivial]
    have hmm : (columnsOf q.width q.height q.pixels).map
        (fun col => packStream 4 4 (col.map grayLut)) =
        ((columnsOf q.width q.height q.pixels).map (List.map grayLut)).map
          (packStream 4 4) := by
      rw [List.map_map]; rfl
    have hlc_len : ((columnsOf q.width q.height q.pixels).map
        (List.map grayLut)).length = q.width := by
      rw [List.length_map, columnsOf_length]
    have hlc_rows : ∀ r ∈ (columnsOf q.width q.height q.pixels).map (List.map grayLut),
        r.length = q.height := by
      intro r hr
      obtain ⟨c, hc, rfl⟩ := List.mem_map.mp hr
      rw [List.length_map]
      exact columnsOf_mem_length _ _ _ c hc
    have hlc_val : ∀ r ∈ (columnsOf q.width q.height q.pixels).map (List.map grayLut),
        ∀ v ∈ r, v < 4 := by
      intro r hr v hv
      obtain ⟨c, _, rfl⟩ := List.mem_map.mp hr
      obtain ⟨u, _, rfl⟩ := List.mem_map.mp hv
      exact grayLut_lt_four u
    have hup : unpackRows 4 4 q.height q.width (encodeGrayPayload q) =
        (columnsOf q.width q.height q.pixels).map (List.map grayLut) := by
      rw [encodeGrayPayload, hmm]
      have hu := unpackRows_pack 4 4 q.height (by omega) (by omega)
        ((columnsOf q.width q.height q.pixels).map (List.map grayLut))
        hlc_rows hlc_val
      rw [hlc_len] at hu
      exact hu
    rw [hup]
    have hundo : ((columnsOf q.width q.height q.pixels).map (List.map grayLut)).map
        (fun col => col.map grayLut) = columnsOf q.width q.height q.pixels := by
      rw [List.map_map]
      have hid : (columnsOf q.width q.height q.pixels).map
          ((fun col => List.map grayLut col) ∘ List.map grayLut) =
          (columnsOf q.width q.height q.pixels).map id := by
        apply List.map_congr_left
        intro c hc
        simp only [Function.comp, id]
        exact map_map_grayLut c (columnsOf_mem_val _ _ _ 4 (by omega) hval c hc)
      rw [hid, List.map_id]
    rw [hundo, rowsFromColumns_columnsOf q.width q.height q.pixels hlen]
    have hq : (⟨q.width, q.height, 4, q.pixels⟩ : QuantizedRaster) = q := by
      cases q
      simp only [PageFormat.levels] at hlev
      simp [hlev]
    rw [hq]

/-- C2 witness: the round trip at a concrete 3×2 monochrome page and a
concrete 2×3 grayscale page. -/
theorem decodePage_encode_witness :
    (([1, 0, 1, 0, 1, 1] : List Nat).length = 2 * 3 ∧
      decodePage (encode ⟨3, 2, 2, [1, 0, 1, 0, 1, 1]⟩ .monochrome) =
        some (⟨3, 2, 2, [1, 0, 1, 0, 1, 1]⟩ : QuantizedRaster)) ∧
    decodePage (encode ⟨2, 3, 4, [0, 1, 2, 3, 1, 2]⟩ .gray4) =
      some (⟨2, 3, 4, [0, 1, 2, 3, 1, 2]⟩ : QuantizedRaster) :=
  ⟨⟨by decide,
    decodePage_encode ⟨3, 2, 2, [1, 0, 1, 0, 1, 1]⟩ .monochrome (by decide) (by decide)
      (by decide) (by decide) (by decide) (by decide)⟩,
   decodePage_encode ⟨2, 3, 4, [0, 1, 2, 3, 1, 2]⟩ .gray4 (by decide) (by decide)
      (by decide) (by decide) (by decide) (by decide)⟩

lemma flatten_block (m : Nat) (l : List (List Nat)) (i : Nat)
    (hlen : ∀ b ∈ l, b.length = m) (hi : i < l.length) :
    (l.flatten.drop (i * m)).take m = l.getD i [] := by
  induction l generalizing i with
  | nil => simp at hi
  | cons b rest ih =>
    have hb : b.length = m := hlen b (by simp)
    cases i with
    | zero =>
      simp only [Nat.zero_mul, List.drop_zero, List.flatten_cons]
      rw [← hb, List.take_left]
      rfl
    | succ i =>
      rw [List.flatten_cons]
      have hsplit : (b ++ rest.flatten).drop ((i + 1) * m) = rest.flatten.drop (i * m) := by
        have h1 : (i + 1) * m = b.length + i * m := by rw [hb]; ring
        rw [h1, ← List.drop_drop, List.drop_left]
      rw [hsplit, ih i (fun q hq => hlen q (by simp [hq])) (by simpa using hi)]
      rfl

/-- C6: the grayscale payload is packed in column-major (vertical scan)
order — the bytes of column x sit at block x of the payload and decode
to that column read top to bottom — and every 2-bit level is first
remapped through the fixed lookup table grayLut, which swaps the two
middle levels (1 ↦ 2, 2 ↦ 1) and is an involution on levels 0..3. -/
theorem encode_gray_column_major (q : QuantizedRaster) :
    (∀ x, x < q.width →
      unpackStream 4 4 q.height
        (((encode q .gray4).payload.drop (x * ((q.height + 3) / 4))).take
          ((q.height + 3) / 4)) =
        (List.range q.height).map
          (fun y => grayLut (q.pixels.getD (y * q.width + x) 0))) ∧
    grayLut 0 = 0 ∧ grayLut 1 = 2 ∧ grayLut 2 = 1 ∧ grayLut 3 = 3 ∧
    (∀ v, v < 4 → grayLut (grayLut v) = v) := by
  refine ⟨?_, rfl, rfl, rfl, rfl, grayLut_invol⟩
  intro x hx
  have hpay : (encode q .gray4).payload =
      ((columnsOf q.width q.height q.pixels).map
        (fun col => packStream 4 4 (col.map grayLut))).flatten := rfl
  rw [hpay]
  have hbl : ∀ b ∈ (columnsOf q.width q.height q.pixels).map
      (fun col => packStream 4 4 (col.map grayLut)),
      b.length = (q.height + 3) / 4 := by
    intro b hb
    obtain ⟨c, hc, rfl⟩ := List.mem_map.mp hb
    rw [packStream_length, List.length_map, columnsOf_mem_length _ _ _ c hc]
    rfl
  have hblen : ((columnsOf q.width q.height q.pixels).map
      (fun col => packStream 4 4 (col.map grayLut))).length = q.width := by
    rw [List.length_map, columnsOf_length]
  rw [flatten_block ((q.height + 3) / 4) _ x hbl (by rw [hblen]; exact hx)]
  have hgd : ((columnsOf q.width q.height q.pixels).map
      (fun col => packStream 4 4 (col.map grayLut))).getD x [] =
      packStream 4 4 (((List.range q.height).map
        (fun y => q.pixels.getD (y * q.width + x) 0)).map grayLut) := by
    rw [columnsOf, List.map_map]
    exact getD_map_range _ _ _ hx _
  rw [hgd]
  have hrt := stream_roundtrip 4 4 (by omega) (by omega)
    (((List.range q.height).map
      (fun y => q.pixels.getD (y * q.width + x) 0)).map grayLut)
    (by intro v hv; obtain ⟨u, _, rfl⟩ := List.mem_map.mp hv; exact grayLut_lt_four u)
  rw [List.length_map, List.length_map, List.length_range] at hrt
  rw [hrt, List.map_map]
  rfl

/-- C6 witness: column 1 of a concrete 2×3 grayscale page. -/
theorem encode_gray_column_major_witness :
    (1 < 2) ∧
    unpackStream 4 4 3
      (((encode ⟨2, 3, 4, [0, 1, 2, 3, 1, 2]⟩ .gray4).payload.drop (1 * ((3 + 3) / 4))).take
        ((3 + 3) / 4)) =
      (List.range 3).map
        (fun y => grayLut (([0, 1, 2, 3, 1, 2] : List Nat).getD (y * 2 + 1) 0)) :=
  ⟨by decide,
    (encode_gray_column_major ⟨2, 3, 4, [0, 1, 2, 3, 1, 2]⟩).1 1 (by decide)⟩

/-- C1: quantize is a pure, deterministic function of exactly the four
inputs (frame, levels, dither strength, invert): any two runs on
identical inputs produce identical output — there is no randomness,
hidden state or timing dependence in the model. -/
theorem quantize_deterministic (f : RasterFrame) (L d : Nat) (i : Bool)
    (r1 r2 : QuantizedRaster)
    (h1 : r1 = quantize f L d i) (h2 : r2 = quantize f L d i) : r1 = r2 :=
  h1.trans h2.symm

/-- C1 witness: two runs on a concrete frame agree. -/
theorem quantize_deterministic_witness :
    quantize ⟨2, 1, [0, 255]⟩ 4 50 false = quantize ⟨2, 1, [0, 255]⟩ 4 50 false :=
  quantize_deterministic ⟨2, 1, [0, 255]⟩ 4 50 false _ _ rfl rfl

/-- C3: a push whose page index is not exactly the next expected index
is rejected with OutOfOrderPage and changes no session state (in
particular, on an empty session in Receiving, pushing index 2 before
index 1 fails and the session stays in Receiving with page count 0). -/
theorem push_out_of_order (s : Session) (frame : RasterFrame) (idx : Nat)
    (hst : s.state = .receiving)
    (hdw : frame.width = s.preset.width) (hdh : frame.height = s.preset.height)
    (hidx : idx ≠ s.builder.pages.length) :
    (s.push idx frame).1 = some .OutOfOrderPage ∧ (s.push idx frame).2 = s := by
  rcases s with ⟨preset, fmt, d, inv, st, b⟩
  simp only at hst hdw hdh hidx
  subst hst
  simp only [Session.push]
  rw [if_neg (by push_neg; exact ⟨hdw, hdh⟩), if_pos hidx]
  exact ⟨by trivial, by trivial⟩

/-- C3 witness: pushing page index 2 on an empty receiving session. -/
theorem push_out_of_order_witness :
    ((⟨⟨480, 800⟩, .monochrome, 50, false, .receiving,
        ContainerBuilder.begin⟩ : Session).push 2 ⟨480, 800, []⟩).1 =
      some .OutOfOrderPage ∧
    ((⟨⟨480, 800⟩, .monochrome, 50, false, .receiving,
        ContainerBuilder.begin⟩ : Session).push 2 ⟨480, 800, []⟩).2 =
      (⟨⟨480, 800⟩, .monochrome, 50, false, .receiving,
        ContainerBuilder.begin⟩ : Session) :=
  push_out_of_order ⟨⟨480, 800⟩, .monochrome, 50, false, .receiving,
    ContainerBuilder.begin⟩ ⟨480, 800, []⟩ 2 rfl rfl rfl (by decide)

/-- C4: if the submitted chapter list has an entry with page index ≥
the total page count, or is not sorted ascending by page index, then
finalize fails with InvalidChapterTable and the session becomes
Aborted. -/
theorem finalize_invalid_chapters (s : Session)
    (hst : s.state = .receiving)
    (hfin : s.builder.finished = false)
    (hbad : (∃ c ∈ s.builder.chapters, s.builder.pages.length ≤ c.pageIndex) ∨
      chaptersSorted s.builder.chapters = false) :
    (s.finalize).1 = .error .InvalidChapterTable ∧ (s.finalize).2.state = .aborted := by
  rcases s with ⟨preset, fmt, d, inv, st, b⟩
  simp only at hst hfin hbad
  subst hst
  have hcho : chaptersOk b.chapters b.pages.length = false := by
    rw [chaptersOk]
    rcases hbad with ⟨c, hc, hge⟩ | hsort
    · have hall : b.chapters.all
          (fun c => decide (c.pageIndex < b.pages.length)) = false := by
        apply List.all_eq_false.mpr
        exact ⟨c, hc, by simp; omega⟩
      rw [hall, Bool.false_and]
    · rw [hsort, Bool.and_false]
  have hfinish : b.finish = .error .InvalidChapterTable := by
    rw [ContainerBuilder.finish, if_neg (by rw [hfin]; simp),
      if_neg (by rw [hcho]; simp)]
  simp only [Session.finalize, hfinish]
  exact ⟨by trivial, by trivial⟩

/-- C4 witness: a chapter entry with page index 3 against page count 0. -/
theorem finalize_invalid_chapters_witness :
    ((⟨⟨480, 800⟩, .monochrome, 50, false, .receiving,
        ⟨[], [], none, [⟨"Ch1", 3⟩], false⟩⟩ : Session).finalize).1 =
      .error .InvalidChapterTable ∧
    ((⟨⟨480, 800⟩, .monochrome, 50, false, .receiving,
        ⟨[], [], none, [⟨"Ch1", 3⟩], false⟩⟩ : Session).finalize).2.state = .aborted :=
  finalize_invalid_chapters ⟨⟨480, 800⟩, .monochrome, 50, false, .receiving,
    ⟨[], [], none, [⟨"Ch1", 3⟩], false⟩⟩ rfl rfl
    (Or.inl ⟨⟨"Ch1", 3⟩, by simp, by decide⟩)

lemma checkSection_ok (fs off size : Nat) (f : Finding)
    (h : off = 0 ∨ (56 ≤ off ∧ off + size ≤ fs)) :
    checkSection fs off size f = [] := by
  rcases h with h | h
  · rw [checkSection, if_pos h]
  · rw [checkSection]
    by_cases h0 : off = 0
    · rw [if_pos h0]
    · rw [if_neg h0, if_pos h]

lemma layoutPages_length (ps : List EncodedPage) : ∀ off,
    (layoutPages off ps).length = ps.length := by
  induction ps with
  | nil => intro off; rfl
  | cons p rest ih => intro off; simp [layoutPages, ih]

lemma checkPageBounds_layout (d sz : Nat) : ∀ (ps : List EncodedPage) (o i : Nat),
    d ≤ o → o + (ps.map (fun p => (pageBlob p).length)).sum ≤ d + sz →
    checkPageBounds d sz (layoutPages o ps) i = [] := by
  intro ps
  induction ps with
  | nil => intro o i _ _; rfl
  | cons p rest ih =>
    intro o i h1 h2
    simp only [List.map_cons, List.sum_cons] at h2
    rw [layoutPages, checkPageBounds, if_pos ⟨h1, by omega⟩, List.nil_append]
    exact ih (o + (pageBlob p).length) (i + 1) (by omega) (by omega)

lemma checkOverlap_layout : ∀ (ps : List EncodedPage) (o i : Nat),
    checkOverlap (layoutPages o ps) i = [] := by
  intro ps
  induction ps with
  | nil => intro o i; rfl
  | cons p rest ih =>
    intro o i
    cases rest with
    | nil => rfl
    | cons q rest2 =>
      rw [layoutPages, layoutPages, checkOverlap, if_pos (by omega), List.nil_append]
      have hres := ih (o + (pageBlob p).length) (i + 1)
      rw [layoutPages] at hres
      exact hres

lemma checkChapters_all (pc : Nat) : ∀ (chs : List Nat) (i : Nat),
    (∀ c ∈ chs, c < pc) → checkChapters pc chs i = [] := by
  intro chs
  induction chs with
  | nil => intro i _; rfl
  | cons c rest ih =>
    intro i h
    rw [checkChapters, if_pos (h c (by simp)), List.nil_append]
    exact ih (i + 1) (fun u hu => h u (by simp [hu]))

/-- C7: every container produced by a completed ContainerBuilder passes
validation with an empty findings list: all section offsets are in file
bounds and consistent with their sizes, the page-table payload regions
do not overlap, and every chapter index is in range. -/
theorem builder_finish_validates (b : ContainerBuilder) (c : XtcContainer)
    (hok : b.finish = .ok c) : validate c = [] := by
  rw [ContainerBuilder.finish] at hok
  by_cases hfin : b.finished = true
  · rw [if_pos hfin] at hok; simp at hok
  · rw [if_neg hfin] at hok
    by_cases hch : chaptersOk b.chapters b.pages.length = true
    · rw [if_pos hch] at hok
      have hc : c = buildContainer b := by
        injection hok with h; exact h.symm
      subst hc
      have hchap : ∀ pi ∈ b.chapters.map (fun ch => ch.pageIndex),
          pi < b.pages.length := by
        intro pi hpi
        obtain ⟨ch, hch2, rfl⟩ := List.mem_map.mp hpi
        have hand := (Bool.and_eq_true _ _).mp (by rw [← chaptersOk]; exact hch)
        have hall := List.all_eq_true.mp hand.1 ch hch2
        simpa using hall
      by_cases ht : b.thumb = none <;> by_cases hce : b.chapters = [] <;>
        (simp only [validate, buildContainer, ht, hce, List.append_eq_nil,
           if_true, if_false]
         refine ⟨⟨⟨⟨⟨⟨⟨⟨?_, ?_⟩, ?_⟩, ?_⟩, ?_⟩, ?_⟩, ?_⟩, ?_⟩, ?_⟩ <;>
           first
             | rfl
             | exact checkSection_ok _ _ _ _ (Or.inl rfl)
             | exact checkSection_ok _ _ _ _ (Or.inr ⟨by omega, by omega⟩)
             | simp [layoutPages_length]
             | exact checkPageBounds_layout _ _ _ _ _ (Nat.le_refl _) (Nat.le_refl _)
             | exact checkOverlap_layout _ _ _
             | exact checkChapters_all _ _ _ hchap)
    · rw [if_neg hch] at hok; simp at hok

/-- C7 witness: a concrete one-page builder with metadata, thumbnail
and one chapter finishes successfully and validates cleanly. -/
theorem builder_finish_validates_witness :
    (⟨[encode ⟨2, 2, 2, [1, 0, 0, 1]⟩ .monochrome], [7], some [9],
        [⟨"Ch1", 0⟩], false⟩ : ContainerBuilder).finish =
      .ok (buildContainer ⟨[encode ⟨2, 2, 2, [1, 0, 0, 1]⟩ .monochrome], [7], some [9],
        [⟨"Ch1", 0⟩], false⟩) ∧
    validate (buildContainer ⟨[encode ⟨2, 2, 2, [1, 0, 0, 1]⟩ .monochrome], [7], some [9],
        [⟨"Ch1", 0⟩], false⟩) = [] :=
  ⟨rfl,
    builder_finish_validates ⟨[encode ⟨2, 2, 2, [1, 0, 0, 1]⟩ .monochrome], [7], some [9],
      [⟨"Ch1", 0⟩], false⟩ _ rfl⟩

end Pipeline
